import Mathlib

/-!
# apkpure-go: verification of the download orchestration engine

A shallow embedding of `pkg/apkpure` (`types.go`, `client.go`, `downloader.go`).

* Go values become Lean structures with the field names of the source.
* Go `error` values become the inductive type `GoError`, one constructor per
  `fmt.Errorf` call site of the package; `GoError.Error` renders the message and
  `GoError.Unwrap` follows the `%w` verb.
* Stateful code is written in explicit state-passing style.  `Sys` is the state of
  the outside world a method can touch (files, the HTTP server, library oracles);
  `World` adds the trace of console output and sleeps.
* The goroutines of `DownloadMultiple` become a step function over a scheduler choice.
-/

namespace Apkpure

/-! ## Data model (`types.go`) -/

/-- Byte strings; every element stands for one byte. -/
abbrev Bytes := List Nat

/-- Go `AppInfo`: an app to download; `Version` is optional, `""` meaning unset. -/
structure AppInfo where
  PackageID : String
  Version : String
deriving DecidableEq, Repr, Inhabited

/-- Go `VersionInfo`: a version of an app. -/
structure VersionInfo where
  VersionName : String
  VersionCode : String
  APKType : String
  DownloadURL : String
deriving DecidableEq, Repr, Inhabited

/-- The anonymous `Asset` struct of an `APIResponse` entry (`url`, `type`). -/
structure Asset where
  URL : String
  Typ : String
deriving DecidableEq, Repr, Inhabited

/-- One element of `APIResponse.VersionList`. -/
structure VersionEntry where
  VersionName : String
  VersionCode : String
  Asset : Asset
deriving DecidableEq, Repr, Inhabited

/-- Go `APIResponse`: the decoded catalog response. -/
structure APIResponse where
  VersionList : List VersionEntry
deriving DecidableEq, Repr, Inhabited

/-- Go `error` values of the package.  `lib` stands for an error produced by a
library call (transport, operating system, reader, JSON decoder); the other
constructors are the `fmt.Errorf` call sites of `downloader.go`. -/
inductive GoError where
  | lib (msg : String)
  | invalidStatus (code : Nat)
  | parseJSON (cause : GoError)
  | fetchFailed (cause : GoError)
  | noVersions (packageID : String)
  | versionNotFound (version packageID : String)
  | fileExists (filename : String)
  | createFile (cause : GoError)
  | closeFile (cause : GoError)
  | failedAfter (maxRetries : Nat) (cause : GoError)
deriving DecidableEq, Repr, Inhabited

/-- The message of an error, as `err.Error()` prints it. -/
def GoError.Error : GoError → String
  | .lib msg => msg
  | .invalidStatus code => "invalid status code: " ++ toString code
  | .parseJSON cause => "failed to parse JSON: " ++ cause.Error
  | .fetchFailed cause => "failed to fetch versions: " ++ cause.Error
  | .noVersions packageID => "no versions available for " ++ packageID
  | .versionNotFound version packageID =>
      "version " ++ version ++ " not found for " ++ packageID
  | .fileExists filename => "file already exists: " ++ filename
  | .createFile cause => "failed to create file: " ++ cause.Error
  | .closeFile cause => "failed to close output file: " ++ cause.Error
  | .failedAfter maxRetries cause =>
      "failed after " ++ toString maxRetries ++ " attempts: " ++ cause.Error

/-- The error wrapped with `%w`, as `errors.Unwrap` returns it. -/
def GoError.Unwrap : GoError → Option GoError
  | .parseJSON cause => some cause
  | .fetchFailed cause => some cause
  | .createFile cause => some cause
  | .closeFile cause => some cause
  | .failedAfter _ cause => some cause
  | _ => none

/-- Go `DownloadOptions`.  `Parallel` is a Go `int`; `SleepDuration` is a
`time.Duration` in nanoseconds; `ProgressCallback` records whether the callback
is non-nil (its invocations are logged in `Sys.progress`). -/
structure DownloadOptions where
  Arch : String
  Language : String
  OSVersion : String
  Parallel : Int
  SleepDuration : Int
  OutputFormat : String
  ProgressCallback : Bool
deriving DecidableEq, Repr, Inhabited

/-- Go `DownloadResult`; `Error` is `none` for a nil error. -/
structure DownloadResult where
  AppInfo : AppInfo
  Filename : String
  Success : Bool
  Error : Option GoError
deriving DecidableEq, Repr, Inhabited

/-- Go `Client`; the `http.Client` it holds is the `server` oracle of `Sys`. -/
structure Client where
  options : DownloadOptions
deriving DecidableEq, Repr, Inhabited

/-! ## `client.go` -/

/-- Constant `versionsURLFormat` up to its `%s`. -/
def versionsURLFormat : String :=
  "https://tapi.pureapk.com/v3/get_app_his_version?hl=en&package_name="

/-- Go `NewClient`: fills in the defaults of unset options. -/
def NewClient (opts : DownloadOptions) : Client :=
  let opts := if opts.Arch = "" then
    { opts with Arch := "arm64-v8a;armeabi-v7a;armeabi;x86;x86_64" } else opts
  let opts := if opts.Language = "" then { opts with Language := "en-US" } else opts
  let opts := if opts.OSVersion = "" then { opts with OSVersion := "35" } else opts
  let opts := if opts.Parallel ≤ 0 then { opts with Parallel := 4 } else opts
  let opts := if opts.OutputFormat = "" then
    { opts with OutputFormat := "plaintext" } else opts
  { options := opts }

/-- Go `Client.getVersionsURL`. -/
def getVersionsURL (_c : Client) (packageID : String) : String :=
  versionsURLFormat ++ packageID

/-! ## The outside world -/

/-- The error part of one `resp.Body.Read` call. -/
inductive ReadErr where
  | nil
  | EOF
  | fail (e : GoError)
deriving DecidableEq, Repr, Inhabited

/-- One `resp.Body.Read(buffer)` call: the bytes put in the buffer and the error. -/
structure ReadStep where
  data : Bytes
  err : ReadErr
deriving DecidableEq, Repr, Inhabited

/-- An HTTP response.  `Body` lists what the successive `Read` calls return; a
body whose list is used up answers `(0, io.EOF)`. -/
structure Response where
  StatusCode : Nat
  ContentLength : Int
  Body : List ReadStep
deriving DecidableEq, Repr, Inhabited

/-- The world outside the program.
* `files`: the filesystem, path to content; `os.Stat(path)` returns a nil error
  exactly for the paths present, and `os.Create(path)` puts an empty file there;
* `server`: what `httpClient.Do` returns for the n-th request of the run, by URL;
* `requests`: the URLs requested so far;
* `jsonUnmarshal`: `json.Unmarshal` into an `APIResponse`;
* `newRequestErr`, `createErr`, `writeErr`, `closeErr`: failures of
  `http.NewRequest` (by URL), `os.Create` (by path), `File.Write` (by path and
  offset) and `File.Close` (by path);
* `progress`: the calls made to `ProgressCallback`. -/
structure Sys where
  files : String → Option Bytes
  server : Nat → String → Except GoError Response
  requests : List String
  jsonUnmarshal : Bytes → Except GoError APIResponse
  newRequestErr : String → Option GoError
  createErr : String → Option GoError
  writeErr : String → Nat → Option GoError
  closeErr : String → Option GoError
  progress : List (String × Nat × Int)

/-- Observable events of a run, in order.  `attempt n` marks the n-th invocation
of the attempt function by the retry loop. -/
inductive Event where
  | printf (s : String)
  | sleep (nanoseconds : Int)
  | attempt (n : Nat)
deriving DecidableEq, Repr, Inhabited

/-- State threaded through `Download`: the outside world and the event trace. -/
structure World where
  sys : Sys
  trace : List Event

/-- Go `time.Second` in nanoseconds. -/
def timeSecond : Int := 1000000000

/-- Go `filepath.Join(outPath, filename)` for a directory and a plain name. -/
def filepathJoin (outPath filename : String) : String :=
  if outPath = "" then filename else outPath ++ "/" ++ filename

/-- Go `httpClient.Do(req)` for a GET request: logs the request and asks the server. -/
def httpDo (url : String) (s : Sys) : Except GoError Response × Sys :=
  (s.server s.requests.length url, { s with requests := s.requests ++ [url] })

/-- Go `io.ReadAll`: reads until `io.EOF` (success) or an error. -/
def ioReadAll : List ReadStep → Bytes → Except GoError Bytes
  | [], acc => .ok acc
  | step :: rest, acc =>
    match step.err with
    | .nil => ioReadAll rest (acc ++ step.data)
    | .EOF => .ok (acc ++ step.data)
    | .fail e => .error e

/-! ## `downloader.go` -/

/-- The loop body of `parseVersionResponse`: keeps an entry with a non-empty URL. -/
def appendVersion (versions : List VersionInfo) (v : VersionEntry) : List VersionInfo :=
  if v.Asset.URL ≠ "" then
    versions ++ [{ VersionName := v.VersionName, VersionCode := v.VersionCode,
                   APKType := v.Asset.Typ, DownloadURL := v.Asset.URL }]
  else versions

/-- Go `Client.parseVersionResponse`; `unmarshal` is `json.Unmarshal`. -/
def parseVersionResponse (_c : Client) (unmarshal : Bytes → Except GoError APIResponse)
    (body : Bytes) : Except GoError (List VersionInfo) :=
  match unmarshal body with
  | .error err => .error (.parseJSON err)
  | .ok apiResp => .ok (apiResp.VersionList.foldl appendVersion [])

/-- Go `Client.fetchVersions`.  The request headers built by `buildHeaders` are
fixed by the client; the `server` oracle answers by URL and request number. -/
def fetchVersions (c : Client) (packageID : String) (s : Sys) :
    Except GoError (List VersionInfo) × Sys :=
  let url := getVersionsURL c packageID
  match s.newRequestErr url with
  | some err => (.error err, s)
  | none =>
    match httpDo url s with
    | (.error err, s1) => (.error err, s1)
    | (.ok resp, s1) =>
      if resp.StatusCode ≠ 200 then (.error (.invalidStatus resp.StatusCode), s1)
      else
        match ioReadAll resp.Body [] with
        | .error err => (.error err, s1)
        | .ok body => (parseVersionResponse c s1.jsonUnmarshal body, s1)

/-- Go `outFile.Write(buffer[:n])`: appends the bytes to the file, or fails. -/
def fileWrite (fullPath : String) (data : Bytes) (s : Sys) : Option GoError × Sys :=
  let old := (s.files fullPath).getD []
  match s.writeErr fullPath old.length with
  | some writeErr => (some writeErr, s)
  | none =>
    (none, { s with files := fun p => if p = fullPath then some (old ++ data) else s.files p })

/-- The copy loop of `downloadFile` (`for { n, err := resp.Body.Read(buffer) ... }`),
one list element per `Read` call; `downloaded` is the running byte count. -/
def copyLoop (c : Client) (fullPath filename : String) (total : Int) :
    List ReadStep → Nat → Sys → Option GoError × Sys
  | [], _, s => (none, s)
  | step :: rest, downloaded, s =>
    let n := step.data.length
    let written : Option GoError × Nat × Sys :=
      if n > 0 then
        match fileWrite fullPath step.data s with
        | (some writeErr, s1) => (some writeErr, downloaded, s1)
        | (none, s1) =>
          let downloaded := downloaded + n
          if c.options.ProgressCallback then
            (none, downloaded,
              { s1 with progress := s1.progress ++ [(filename, downloaded, total)] })
          else (none, downloaded, s1)
      else (none, downloaded, s)
    match written with
    | (some writeErr, _, s1) => (some writeErr, s1)
    | (none, downloaded, s1) =>
      match step.err with
      | .EOF => (none, s1)
      | .fail err => (some err, s1)
      | .nil => copyLoop c fullPath filename total rest downloaded s1

/-- The deferred `outFile.Close()` of `downloadFile`: a close error is reported
only when the function was about to return nil. -/
def deferredClose (fullPath : String) (r : Option GoError × Sys) : Option GoError × Sys :=
  match r.2.closeErr fullPath, r.1 with
  | some closeErr, none => (some (.closeFile closeErr), r.2)
  | _, err => (err, r.2)

/-- Go `Client.downloadFile`. -/
def downloadFile (c : Client) (url outPath filename : String) (s : Sys) :
    Option GoError × Sys :=
  let fullPath := filepathJoin outPath filename
  -- Check if file already exists
  if (s.files fullPath).isSome then (some (.fileExists filename), s)
  else
    -- Create output file
    match s.createErr fullPath with
    | some err => (some (.createFile err), s)
    | none =>
      let s0 : Sys := { s with files := fun p => if p = fullPath then some [] else s.files p }
      deferredClose fullPath <|
        -- Download
        match s0.newRequestErr url with
        | some err => (some err, s0)
        | none =>
          match httpDo url s0 with
          | (.error err, s1) => (some err, s1)
          | (.ok resp, s1) =>
            if resp.StatusCode ≠ 200 then (some (.invalidStatus resp.StatusCode), s1)
            else copyLoop c fullPath filename resp.ContentLength resp.Body 0 s1

/-- What `downloadWithRetry` returns once the loop is over:
`fmt.Errorf("failed after %d attempts: %w", maxRetries, lastErr)`. -/
def retriesExhausted (maxRetries : Nat) (lastErr : Option GoError) : GoError :=
  match lastErr with
  | some err => .failedAfter maxRetries err
  | none => .failedAfter maxRetries (.lib "%!w(<nil>)")

/-- The `for attempt := 1; attempt <= maxRetries; attempt++` loop of
`downloadWithRetry`, over any attempt function `attemptFn` acting on a state the
loop itself never touches.  The loop's own effects (the `Retry #` line, the
one-second sleep) and a marker for each invocation go to the trace.  The first
argument bounds the number of times the loop condition is evaluated. -/
def retryLoop {σ : Type} (attemptFn : σ → Option GoError × σ) (maxRetries : Nat) :
    Nat → Nat → Option GoError → σ → List Event → Option GoError × σ × List Event
  | 0, _, lastErr, s, tr => (some (retriesExhausted maxRetries lastErr), s, tr)
  | checks + 1, attempt, lastErr, s, tr =>
    if attempt ≤ maxRetries then
      let tr := if attempt > 1 then
        tr ++ [.printf ("Retry #" ++ toString (attempt - 1) ++ "...\n")] else tr
      let tr := tr ++ [.attempt attempt]
      match attemptFn s with
      | (none, s1) => (none, s1, tr)
      | (some err, s1) =>
        let tr := if attempt < maxRetries then tr ++ [.sleep timeSecond] else tr
        retryLoop attemptFn maxRetries checks (attempt + 1) (some err) s1 tr
    else (some (retriesExhausted maxRetries lastErr), s, tr)

/-- Go `Client.downloadWithRetry`, with the attempt function made explicit.  The
condition `attempt <= maxRetries` is evaluated `maxRetries + 1` times at most. -/
def downloadWithRetryOf (attemptFn : Sys → Option GoError × Sys) (w : World) :
    Option GoError × World :=
  let maxRetries := 3
  match retryLoop attemptFn maxRetries (maxRetries + 1) 1 none w.sys w.trace with
  | (err, sys, trace) => (err, { sys := sys, trace := trace })

/-- Go `Client.downloadWithRetry`: the attempt is `c.downloadFile(url, outPath, filename)`. -/
def downloadWithRetry (c : Client) (url outPath filename : String) (w : World) :
    Option GoError × World :=
  downloadWithRetryOf (downloadFile c url outPath filename) w

/-- Go `fmt.Printf`. -/
def printf (line : String) (w : World) : World :=
  { w with trace := w.trace ++ [.printf line] }

/-- The search loop of `Download` (`for i := range versions { ... break }`): the
first record whose `VersionName` equals the requested version. -/
def findVersion (version : String) : List VersionInfo → Option VersionInfo
  | [] => none
  | v :: rest => if v.VersionName = version then some v else findVersion version rest

/-- Go `Client.Download`. -/
def Download (c : Client) (app : AppInfo) (outPath : String) (w : World) :
    Option GoError × World :=
  let w := printf ("Downloading " ++ app.PackageID ++ "...\n") w
  match fetchVersions c app.PackageID w.sys with
  | (.error err, sys) => (some (.fetchFailed err), { w with sys := sys })
  | (.ok versions, sys) =>
    let w : World := { w with sys := sys }
    match versions with
    | [] => (some (.noVersions app.PackageID), w)
    | latest :: _ =>
      -- Find the matching version or use the latest
      let targetVersion : Option VersionInfo :=
        if app.Version ≠ "" then findVersion app.Version versions else some latest
      match targetVersion with
      | none => (some (.versionNotFound app.Version app.PackageID), w)
      | some targetVersion =>
        -- Build filename
        let appString :=
          if app.Version ≠ "" then app.PackageID ++ "@" ++ app.Version else app.PackageID
        let ext := if targetVersion.APKType = "XAPK" then ".xapk" else ".apk"
        let filename := appString ++ ext
        -- Download with retry
        match downloadWithRetry c targetVersion.DownloadURL outPath filename w with
        | (some err, w) => (some err, w)
        | (none, w) => (none, printf (appString ++ " downloaded successfully!\n") w)

/-! ## `DownloadMultiple`: one goroutine per job -/

/-- Where a goroutine of `DownloadMultiple` stands:
`start` before `sem <- struct{}{}`; `acquired` after it; `downloaded err` after
`c.Download` returned `err`; `stored` after `results[idx] = ...`; `released`
after the deferred `<-sem`; `done` after the deferred `wg.Done()`. -/
inductive TaskPC where
  | start
  | acquired
  | downloaded (err : Option GoError)
  | stored
  | released
  | done
deriving DecidableEq, Repr, Inhabited

/-- A goroutine is inside the download section from acquiring the semaphore
until releasing it. -/
def TaskPC.inSection : TaskPC → Bool
  | .acquired => true
  | .downloaded _ => true
  | .stored => true
  | _ => false

/-- State of a `DownloadMultiple` call: the shared world, the number of tokens
in the channel `sem`, the position of every goroutine, the `results` slice. -/
structure MultiState where
  world : World
  sem : Nat
  pcs : List TaskPC
  results : List DownloadResult

/-- The state after the spawning loop: `results := make([]DownloadResult, len(apps))`,
an empty `sem`, every goroutine at its first statement. -/
def MultiState.init (apps : List AppInfo) (w : World) : MultiState :=
  { world := w, sem := 0,
    pcs := List.replicate apps.length .start,
    results := List.replicate apps.length
      { AppInfo := { PackageID := "", Version := "" }, Filename := "",
        Success := false, Error := none } }

/-- Number of goroutines inside the download section. -/
def MultiState.inFlight (st : MultiState) : Nat :=
  st.pcs.countP TaskPC.inSection

/-- Capacity of `sem := make(chan struct{}, c.options.Parallel)`. -/
def semCap (c : Client) : Nat := c.options.Parallel.toNat

/-- One step of goroutine `idx`; `none` when the goroutine cannot move (it is
blocked on the full channel, has finished, or does not exist).  The optional
sleep and the call `c.Download(appInfo, outPath)` make one step. -/
def taskStep (c : Client) (apps : List AppInfo) (outPath : String) (idx : Nat)
    (st : MultiState) : Option MultiState :=
  match apps[idx]?, st.pcs[idx]? with
  | some _, some .start =>
    -- Acquire semaphore: a send on a buffered channel proceeds iff it is not full
    if st.sem < semCap c then
      some { st with sem := st.sem + 1, pcs := st.pcs.set idx .acquired }
    else none
  | some appInfo, some .acquired =>
    -- Sleep if configured
    let w : World :=
      if c.options.SleepDuration > 0 then
        { st.world with trace := st.world.trace ++ [.sleep c.options.SleepDuration] }
      else st.world
    -- Download
    match Download c appInfo outPath w with
    | (err, w1) => some { st with world := w1, pcs := st.pcs.set idx (.downloaded err) }
  | some appInfo, some (.downloaded err) =>
    let appString :=
      if appInfo.Version ≠ "" then appInfo.PackageID ++ "@" ++ appInfo.Version
      else appInfo.PackageID
    some { st with
      results := st.results.set idx
        { AppInfo := appInfo, Filename := appString, Success := err.isNone, Error := err },
      pcs := st.pcs.set idx .stored }
  | some _, some .stored =>
    some { st with sem := st.sem - 1, pcs := st.pcs.set idx .released }
  | some _, some .released =>
    some { st with pcs := st.pcs.set idx .done }
  | _, _ => none

/-- Runs the goroutines in the order the scheduler picks them. -/
def runTasks (c : Client) (apps : List AppInfo) (outPath : String) :
    List Nat → MultiState → Option MultiState
  | [], st => some st
  | idx :: sched, st =>
    match taskStep c apps outPath idx st with
    | some st1 => runTasks c apps outPath sched st1
    | none => none

/-- Go `Client.DownloadMultiple` under the interleaving `sched`: the results
slice once `wg.Wait()` returns, that is once every goroutine is `done`.  `none`
when `sched` is not a complete run, or `make` panics on a negative capacity. -/
def DownloadMultiple (c : Client) (apps : List AppInfo) (outPath : String)
    (sched : List Nat) (w : World) : Option (List DownloadResult) :=
  if c.options.Parallel < 0 then none
  else
    match runTasks c apps outPath sched (MultiState.init apps w) with
    | some st => if st.pcs.all (fun pc => pc = .done) then some st.results else none
    | none => none

/-- The goroutine has executed `results[idx] = DownloadResult{...}`. -/
def TaskPC.recorded : TaskPC → Bool
  | .stored => true
  | .released => true
  | .done => true
  | _ => false

/-- Number of steps a goroutine still has to make. -/
def TaskPC.remaining : TaskPC → Nat
  | .start => 5
  | .acquired => 4
  | .downloaded _ => 3
  | .stored => 2
  | .released => 1
  | .done => 0

/-- Number of steps left in a `DownloadMultiple` call. -/
def MultiState.todo (st : MultiState) : Nat :=
  (st.pcs.map TaskPC.remaining).sum

/-- Invariant of the states of a `DownloadMultiple` call: one goroutine and one
result slot per job; the tokens in `sem` are the goroutines inside the download
section and never exceed the capacity; a goroutine past its store has put its
own job in its own slot. -/
structure MultiInv (c : Client) (apps : List AppInfo) (st : MultiState) : Prop where
  pcs_length : st.pcs.length = apps.length
  results_length : st.results.length = apps.length
  sem_eq : st.sem = st.inFlight
  sem_le : st.sem ≤ semCap c
  stored : ∀ (i : Nat) (pc : TaskPC), st.pcs[i]? = some pc → pc.recorded = true →
    ∃ (app : AppInfo) (r : DownloadResult), apps[i]? = some app ∧ st.results[i]? = some r ∧ r.AppInfo = app

/-! ## Specification vocabulary and sample inputs -/

/-- The field-for-field image of a catalog entry: version name, version code,
asset type, asset URL. -/
def toVersionInfo (v : VersionEntry) : VersionInfo :=
  { VersionName := v.VersionName, VersionCode := v.VersionCode,
    APKType := v.Asset.Typ, DownloadURL := v.Asset.URL }

/-- The end of `Download` once the downloader has returned: its error, or nil
after the success line. -/
def afterRetry (appString : String) (r : Option GoError × World) : Option GoError × World :=
  match r with
  | (some err, w) => (some err, w)
  | (none, w) => (none, printf (appString ++ " downloaded successfully!\n") w)

/-- The world in which `Download` calls the downloader: the system as the
catalog request left it, the trace extended by the `Downloading` line. -/
def worldAfterFetch (app : AppInfo) (w : World) (sys1 : Sys) : World :=
  { sys := sys1, trace := w.trace ++ [.printf ("Downloading " ++ app.PackageID ++ "...\n")] }

/-- A catalog with two APK versions, latest first. -/
def demoCatalog : List VersionEntry :=
  [ { VersionName := "2.0", VersionCode := "20", Asset := { URL := "u2", Typ := "APK" } },
    { VersionName := "1.0", VersionCode := "10", Asset := { URL := "u1", Typ := "APK" } } ]

/-- A system with an empty disk and no faults: the artifact URLs `u1` and `u2`
serve three bytes in two reads, every other URL serves the catalog. -/
def demoSys (catalog : List VersionEntry) : Sys :=
  { files := fun _ => none,
    server := fun _ url =>
      if url = "u1" ∨ url = "u2" then
        .ok { StatusCode := 200, ContentLength := 3, Body := [⟨[1, 2], .nil⟩, ⟨[3], .EOF⟩] }
      else .ok { StatusCode := 200, ContentLength := 2, Body := [⟨[123, 125], .EOF⟩] },
    requests := [],
    jsonUnmarshal := fun _ => .ok { VersionList := catalog },
    newRequestErr := fun _ => none,
    createErr := fun _ => none,
    writeErr := fun _ _ => none,
    closeErr := fun _ => none,
    progress := [] }

/-- The client built from the zero value of `DownloadOptions`. -/
def demoClient : Client :=
  NewClient { Arch := "", Language := "", OSVersion := "", Parallel := 0,
              SleepDuration := 0, OutputFormat := "", ProgressCallback := false }

/-- The job of the end-to-end scenarios: `com.example.app` at the given version. -/
def demoApp (version : String) : AppInfo :=
  { PackageID := "com.example.app", Version := version }

/-- A fresh world over `demoSys`. -/
def demoWorld (catalog : List VersionEntry) : World :=
  { sys := demoSys catalog, trace := [] }

/-- The state after `n` successive invocations of the attempt function. -/
def stateAfter (attemptFn : Sys → Option GoError × Sys) (s : Sys) : Nat → Sys
  | 0 => s
  | n + 1 => (attemptFn (stateAfter attemptFn s n)).2

/-- The outcome of the `k`-th successive invocation of the attempt function
(`k` counted from 1); `none` is success. -/
def outcome (attemptFn : Sys → Option GoError × Sys) (s : Sys) (k : Nat) : Option GoError :=
  (attemptFn (stateAfter attemptFn s (k - 1))).1

/-- The events of a run of the retry loop that makes `n` attempts: a one-second
sleep and the `Retry #` line stand between consecutive attempts, nothing
follows the last one. -/
def retryEvents : Nat → List Event
  | 0 => []
  | 1 => [.attempt 1]
  | n + 2 =>
    retryEvents (n + 1)
      ++ [.sleep timeSecond, .printf ("Retry #" ++ toString (n + 1) ++ "...\n"),
          .attempt (n + 2)]

/-- Number of attempt markers among events. -/
def attemptsIn (evs : List Event) : Nat :=
  evs.countP (fun e => match e with | .attempt _ => true | _ => false)

/-- Number of one-second sleeps among events. -/
def sleepsIn (evs : List Event) : Nat :=
  evs.countP (fun e => e = .sleep timeSecond)

/-- An attempt function that fails with already-exists on every call. -/
def alwaysExists : Sys → Option GoError × Sys :=
  fun s => (some (.fileExists "app.apk"), { s with requests := s.requests ++ ["probe"] })

/-- An attempt function that fails once with a transport error, then succeeds;
it counts its calls in the request log. -/
def secondTimeLucky : Sys → Option GoError × Sys :=
  fun s =>
    (if s.requests.length = 0 then some (.lib "connection reset") else none,
      { s with requests := s.requests ++ ["probe"] })

/-- A client admitting two downloads at a time. -/
def pairClient : Client :=
  NewClient { Arch := "", Language := "", OSVersion := "", Parallel := 2,
              SleepDuration := 0, OutputFormat := "", ProgressCallback := false }

/-- Three jobs: one with a requested version, two without. -/
def demoJobs : List AppInfo :=
  [ { PackageID := "com.example.app", Version := "1.0" },
    { PackageID := "com.example.app", Version := "" },
    { PackageID := "org.sample.tool", Version := "" } ]

/-- An interleaving of the three goroutines of `demoJobs` under `pairClient` in
which job 1 finishes first, then job 2, then job 0. -/
def demoSchedule : List Nat :=
  [0, 1, 1, 1, 1, 2, 1, 2, 2, 0, 2, 2, 0, 0, 0]

/-- A system with an empty disk whose server answers the first request of the
run with status 503 and every later request with the three-byte artifact. -/
def flakySys : Sys :=
  { files := fun _ => none,
    server := fun n _ =>
      if n = 0 then .ok { StatusCode := 503, ContentLength := 0, Body := [] }
      else .ok { StatusCode := 200, ContentLength := 3, Body := [⟨[1, 2], .nil⟩, ⟨[3], .EOF⟩] },
    requests := [],
    jsonUnmarshal := fun _ => .ok { VersionList := demoCatalog },
    newRequestErr := fun _ => none,
    createErr := fun _ => none,
    writeErr := fun _ _ => none,
    closeErr := fun _ => none,
    progress := [] }

/-! ## Theorems -/

/-! ### Catalog parsing -/

theorem foldl_appendVersion (l : List VersionEntry) (acc : List VersionInfo) :
    l.foldl appendVersion acc
      = acc ++ (l.filter (fun v => v.Asset.URL ≠ "")).map toVersionInfo := by
  induction l generalizing acc with
  | nil => simp
  | cons v l ih =>
    by_cases hv : v.Asset.URL = ""
    · simp [List.foldl_cons, appendVersion, hv, ih]
    · simp [List.foldl_cons, appendVersion, hv, ih, toVersionInfo]

/-- C9: when the body decodes to `apiResp`, `parseVersionResponse` succeeds with
exactly the entries of `apiResp.VersionList` whose asset URL is non-empty, in
their original order, each mapped field for field. -/
theorem parseVersionResponse_filter_map (c : Client)
    (unmarshal : Bytes → Except GoError APIResponse) (body : Bytes) (apiResp : APIResponse)
    (hdecode : unmarshal body = .ok apiResp) :
    parseVersionResponse c unmarshal body
      = .ok ((apiResp.VersionList.filter (fun v => v.Asset.URL ≠ "")).map toVersionInfo) := by
  unfold parseVersionResponse
  rw [hdecode]
  have hloop := foldl_appendVersion apiResp.VersionList []
  rw [List.nil_append] at hloop
  rw [← hloop]

/-- Witness of C9: an entry with an empty URL between two usable ones is dropped
and the others keep their order. -/
theorem parseVersionResponse_filter_map_witness :
    parseVersionResponse demoClient
        (fun _ => .ok { VersionList :=
          [ ⟨"2.0", "20", ⟨"u2", "XAPK"⟩⟩, ⟨"1.5", "15", ⟨"", "APK"⟩⟩,
            ⟨"1.0", "10", ⟨"u1", "APK"⟩⟩ ] }) [123, 125]
      = .ok [ ⟨"2.0", "20", "XAPK", "u2"⟩, ⟨"1.0", "10", "APK", "u1"⟩ ] :=
  parseVersionResponse_filter_map demoClient _ [123, 125]
    { VersionList :=
      [ ⟨"2.0", "20", ⟨"u2", "XAPK"⟩⟩, ⟨"1.5", "15", ⟨"", "APK"⟩⟩,
        ⟨"1.0", "10", ⟨"u1", "APK"⟩⟩ ] } rfl

/-! ### Version selection and file naming in `Download` -/

theorem findVersion_eq_none (version : String) (versions : List VersionInfo) :
    findVersion version versions = none ↔ ∀ v ∈ versions, v.VersionName ≠ version := by
  induction versions with
  | nil => simp [findVersion]
  | cons v rest ih =>
    by_cases hv : v.VersionName = version
    · simp [findVersion, hv]
    · simp [findVersion, hv, ih]

theorem findVersion_first (version : String) (pre : List VersionInfo) (v : VersionInfo)
    (post : List VersionInfo) (hname : v.VersionName = version)
    (hpre : ∀ x ∈ pre, x.VersionName ≠ version) :
    findVersion version (pre ++ v :: post) = some v := by
  induction pre with
  | nil => simp [findVersion, hname]
  | cons x pre ih =>
    have hx : x.VersionName ≠ version := hpre x (by simp)
    have hrest : ∀ y ∈ pre, y.VersionName ≠ version := fun y hy => hpre y (by simp [hy])
    simp [findVersion, hx, ih hrest]

theorem fetchVersions_files (c : Client) (packageID : String) (s : Sys) :
    (fetchVersions c packageID s).2.files = s.files := by
  simp only [fetchVersions, httpDo]
  cases s.newRequestErr (getVersionsURL c packageID) with
  | some err => rfl
  | none =>
    cases s.server s.requests.length (getVersionsURL c packageID) with
    | error err => rfl
    | ok resp =>
      by_cases hstatus : resp.StatusCode = 200
      · simp only [hstatus, ne_eq, not_true_eq_false, if_false]
        cases ioReadAll resp.Body [] <;> rfl
      · simp only [hstatus, ne_eq, not_false_eq_true, if_true]

/-- The resolution part of `Download`: with a non-empty catalog list and a
chosen record, `Download` is the downloader run on that record's URL under the
name `appString ++ ext`. -/
theorem Download_resolved (c : Client) (app : AppInfo) (outPath : String) (w : World)
    (versions : List VersionInfo) (sys1 : Sys) (target : VersionInfo)
    (hfetch : fetchVersions c app.PackageID w.sys = (.ok versions, sys1))
    (hchosen : (if app.Version ≠ "" then findVersion app.Version versions
                else versions.head?) = some target) :
    Download c app outPath w
      = afterRetry (if app.Version ≠ "" then app.PackageID ++ "@" ++ app.Version
                    else app.PackageID)
          (downloadWithRetry c target.DownloadURL outPath
            ((if app.Version ≠ "" then app.PackageID ++ "@" ++ app.Version
              else app.PackageID) ++ (if target.APKType = "XAPK" then ".xapk" else ".apk"))
            (worldAfterFetch app w sys1)) := by
  cases versions with
  | nil =>
    by_cases hv : app.Version = ""
    · simp [hv] at hchosen
    · simp [hv, findVersion] at hchosen
  | cons latest rest =>
    have hsel : (if app.Version ≠ "" then findVersion app.Version (latest :: rest)
                 else some latest) = some target := by
      by_cases hv : app.Version = ""
      · simpa [hv] using hchosen
      · simpa [hv] using hchosen
    unfold Download
    simp only [printf, hfetch, hsel, worldAfterFetch, afterRetry]

/-- C1: when no version is requested and the catalog returns a non-empty list,
`Download` runs the downloader on the `DownloadURL` of the first element of the
list, whatever the other elements are. -/
theorem Download_unset_uses_first (c : Client) (app : AppInfo) (outPath : String)
    (w : World) (versions : List VersionInfo) (sys1 : Sys)
    (hunset : app.Version = "")
    (hfetch : fetchVersions c app.PackageID w.sys = (.ok versions, sys1))
    (hne : versions ≠ []) :
    ∃ filename, Download c app outPath w
      = afterRetry app.PackageID
          (downloadWithRetry c (versions.head hne).DownloadURL outPath filename
            (worldAfterFetch app w sys1)) := by
  have hchosen : (if app.Version ≠ "" then findVersion app.Version versions
      else versions.head?) = some (versions.head hne) := by
    simp [hunset, List.head?_eq_head hne]
  refine ⟨app.PackageID ++ (if (versions.head hne).APKType = "XAPK" then ".xapk" else ".apk"), ?_⟩
  have h := Download_resolved c app outPath w versions sys1 _ hfetch hchosen
  simpa [hunset] using h

/-- Witness of C1: the catalog lists 2.0 (`u2`) before 1.0 (`u1`); with no
requested version the downloader is run on `u2`. -/
theorem Download_unset_uses_first_witness :
    ∃ filename, Download demoClient (demoApp "") "out" (demoWorld demoCatalog)
      = afterRetry "com.example.app"
          (downloadWithRetry demoClient "u2" "out" filename
            (worldAfterFetch (demoApp "") (demoWorld demoCatalog)
              (fetchVersions demoClient "com.example.app" (demoSys demoCatalog)).2)) :=
  Download_unset_uses_first demoClient (demoApp "") "out" (demoWorld demoCatalog)
    (demoCatalog.map toVersionInfo) _ rfl rfl (by decide)

theorem fetchVersions_requests (c : Client) (packageID : String) (s : Sys)
    (versions : List VersionInfo) (sys1 : Sys)
    (hfetch : fetchVersions c packageID s = (.ok versions, sys1)) :
    sys1.requests = s.requests ++ [getVersionsURL c packageID] := by
  simp only [fetchVersions, httpDo] at hfetch
  cases hreq : s.newRequestErr (getVersionsURL c packageID) with
  | some err => simp [hreq] at hfetch
  | none =>
    rw [hreq] at hfetch
    cases hdo : s.server s.requests.length (getVersionsURL c packageID) with
    | error err => simp [hdo] at hfetch
    | ok resp =>
      rw [hdo] at hfetch
      by_cases hstatus : resp.StatusCode = 200
      · simp only [hstatus, ne_eq, not_true_eq_false, if_false] at hfetch
        cases hbody : ioReadAll resp.Body [] with
        | error err => simp [hbody] at hfetch
        | ok body =>
          rw [hbody] at hfetch
          simp only [Prod.mk.injEq] at hfetch
          rw [← hfetch.2]
      · simp [hstatus] at hfetch

/-- Counterexample to C2 as stated: the catalog returns the empty list, so no
record is named `1.0`, yet `Download` fails with the no-versions error rather
than with a version-not-found error. -/
theorem Download_empty_list_is_noVersions :
    (fetchVersions demoClient "com.example.app" (demoSys [])).1 = .ok []
    ∧ (∀ v ∈ ([] : List VersionInfo), v.VersionName ≠ "1.0")
    ∧ (Download demoClient (demoApp "1.0") "out" (demoWorld [])).1
        = some (.noVersions "com.example.app")
    ∧ (Download demoClient (demoApp "1.0") "out" (demoWorld [])).1
        ≠ some (.versionNotFound "1.0" "com.example.app") := by
  refine ⟨rfl, by simp, rfl, by decide⟩

/-- C2 (amended to non-empty lists): with a requested version and a non-empty
catalog list, `Download` runs the downloader on the URL of the first record
whose `VersionName` equals the requested version exactly; when no record has
that name it fails with the version-not-found error, having made the catalog
request only: no attempt is recorded and the files are unchanged. -/
theorem Download_requested_version (c : Client) (app : AppInfo) (outPath : String)
    (w : World) (versions : List VersionInfo) (sys1 : Sys)
    (hset : app.Version ≠ "")
    (hfetch : fetchVersions c app.PackageID w.sys = (.ok versions, sys1))
    (hne : versions ≠ []) :
    (∀ pre v post, versions = pre ++ v :: post → v.VersionName = app.Version →
        (∀ x ∈ pre, x.VersionName ≠ app.Version) →
        ∃ filename, Download c app outPath w
          = afterRetry (app.PackageID ++ "@" ++ app.Version)
              (downloadWithRetry c v.DownloadURL outPath filename
                (worldAfterFetch app w sys1)))
    ∧ ((∀ x ∈ versions, x.VersionName ≠ app.Version) →
        (Download c app outPath w).1
          = some (.versionNotFound app.Version app.PackageID)
        ∧ (Download c app outPath w).2.trace
          = w.trace ++ [.printf ("Downloading " ++ app.PackageID ++ "...\n")]
        ∧ (Download c app outPath w).2.sys.files = w.sys.files
        ∧ (Download c app outPath w).2.sys.requests
          = w.sys.requests ++ [getVersionsURL c app.PackageID]) := by
  constructor
  · intro pre v post hsplit hname hpre
    have hchosen : (if app.Version ≠ "" then findVersion app.Version versions
        else versions.head?) = some v := by
      simp [hset, hsplit, findVersion_first app.Version pre v post hname hpre]
    refine ⟨(app.PackageID ++ "@" ++ app.Version)
      ++ (if v.APKType = "XAPK" then ".xapk" else ".apk"), ?_⟩
    have h := Download_resolved c app outPath w versions sys1 v hfetch hchosen
    simpa [hset] using h
  · intro habsent
    have hnone : findVersion app.Version versions = none :=
      (findVersion_eq_none app.Version versions).2 habsent
    have hfiles : sys1.files = w.sys.files := by
      have h := fetchVersions_files c app.PackageID w.sys
      rw [hfetch] at h
      exact h
    have hreqs := fetchVersions_requests c app.PackageID w.sys versions sys1 hfetch
    cases versions with
    | nil => exact absurd rfl hne
    | cons latest rest =>
      have hrun : Download c app outPath w
          = (some (.versionNotFound app.Version app.PackageID),
              { sys := sys1,
                trace := w.trace ++ [.printf ("Downloading " ++ app.PackageID ++ "...\n")] }) := by
        unfold Download
        simp only [printf, hfetch, hset, hnone, ne_eq, not_false_eq_true, if_true]
      rw [hrun]
      exact ⟨rfl, rfl, hfiles, hreqs⟩

/-- Witness of C2 (amended): against the catalog `[2.0 ↦ u2, 1.0 ↦ u1]`, version
`1.0` is downloaded from `u1`, and version `3.0` is not found. -/
theorem Download_requested_version_witness :
    (∃ filename, Download demoClient (demoApp "1.0") "out" (demoWorld demoCatalog)
      = afterRetry ("com.example.app" ++ "@" ++ "1.0")
          (downloadWithRetry demoClient "u1" "out" filename
            (worldAfterFetch (demoApp "1.0") (demoWorld demoCatalog)
              (fetchVersions demoClient "com.example.app" (demoSys demoCatalog)).2)))
    ∧ (Download demoClient (demoApp "3.0") "out" (demoWorld demoCatalog)).1
        = some (.versionNotFound "3.0" "com.example.app") :=
  ⟨(Download_requested_version demoClient (demoApp "1.0") "out" (demoWorld demoCatalog)
      (demoCatalog.map toVersionInfo) _ (by decide) rfl (by decide)).1
      [⟨"2.0", "20", "APK", "u2"⟩] ⟨"1.0", "10", "APK", "u1"⟩ [] rfl rfl (by decide),
   ((Download_requested_version demoClient (demoApp "3.0") "out" (demoWorld demoCatalog)
      (demoCatalog.map toVersionInfo) _ (by decide) rfl (by decide)).2 (by decide)).1⟩

/-- C3: the file name `Download` hands to the downloader is the package ID,
then `@` and the requested version exactly when a version was requested, then
the extension, which is `.xapk` if and only if the chosen record's type is
`XAPK` and `.apk` otherwise. -/
theorem Download_filename (c : Client) (app : AppInfo) (outPath : String) (w : World)
    (versions : List VersionInfo) (sys1 : Sys) (target : VersionInfo)
    (hfetch : fetchVersions c app.PackageID w.sys = (.ok versions, sys1))
    (hchosen : (if app.Version ≠ "" then findVersion app.Version versions
                else versions.head?) = some target) :
    ∃ ext, (ext = ".xapk" ↔ target.APKType = "XAPK")
      ∧ (ext = ".apk" ↔ target.APKType ≠ "XAPK")
      ∧ Download c app outPath w
        = afterRetry (app.PackageID ++ (if app.Version = "" then "" else "@" ++ app.Version))
            (downloadWithRetry c target.DownloadURL outPath
              (app.PackageID ++ (if app.Version = "" then "" else "@" ++ app.Version) ++ ext)
              (worldAfterFetch app w sys1)) := by
  have h := Download_resolved c app outPath w versions sys1 target hfetch hchosen
  have hname : (if app.Version ≠ "" then app.PackageID ++ "@" ++ app.Version
      else app.PackageID)
      = app.PackageID ++ (if app.Version = "" then "" else "@" ++ app.Version) := by
    by_cases hv : app.Version = ""
    · simp [hv]
    · simp [hv, String.append_assoc]
  rw [hname] at h
  by_cases hx : target.APKType = "XAPK"
  · refine ⟨".xapk", by simp [hx], by simp [hx], ?_⟩
    simpa [hx] using h
  · refine ⟨".apk", by simp [hx], by simp [hx], ?_⟩
    simpa [hx] using h

/-- Witness of C3: `com.example.app` with requested version `1.0` and an `APK`
record is written under `com.example.app@1.0.apk`. -/
theorem Download_filename_witness :
    (∃ ext, (ext = ".xapk" ↔ "APK" = "XAPK") ∧ (ext = ".apk" ↔ "APK" ≠ "XAPK")
      ∧ Download demoClient (demoApp "1.0") "out" (demoWorld demoCatalog)
        = afterRetry ("com.example.app" ++ (if "1.0" = "" then "" else "@" ++ "1.0"))
            (downloadWithRetry demoClient "u1" "out"
              ("com.example.app" ++ (if "1.0" = "" then "" else "@" ++ "1.0") ++ ext)
              (worldAfterFetch (demoApp "1.0") (demoWorld demoCatalog)
                (fetchVersions demoClient "com.example.app" (demoSys demoCatalog)).2)))
    ∧ (Download demoClient (demoApp "1.0") "out" (demoWorld demoCatalog)).2.sys.files
        "out/com.example.app@1.0.apk" = some [1, 2, 3] :=
  ⟨Download_filename demoClient (demoApp "1.0") "out" (demoWorld demoCatalog)
      (demoCatalog.map toVersionInfo) _ ⟨"1.0", "10", "APK", "u1"⟩ rfl rfl, rfl⟩

/-! ### The retry loop -/

/-- The run of `downloadWithRetry` spelled out by the outcomes of the attempts. -/
theorem downloadWithRetryOf_unroll (attemptFn : Sys → Option GoError × Sys) (w : World) :
    downloadWithRetryOf attemptFn w =
      match attemptFn w.sys with
      | (none, s1) => (none, { sys := s1, trace := w.trace ++ retryEvents 1 })
      | (some _, s1) =>
        match attemptFn s1 with
        | (none, s2) => (none, { sys := s2, trace := w.trace ++ retryEvents 2 })
        | (some _, s2) =>
          match attemptFn s2 with
          | (none, s3) => (none, { sys := s3, trace := w.trace ++ retryEvents 3 })
          | (some err, s3) =>
            (some (.failedAfter 3 err), { sys := s3, trace := w.trace ++ retryEvents 3 }) := by
  unfold downloadWithRetryOf
  simp only [retryLoop]
  rcases h1 : attemptFn w.sys with ⟨_ | e1, s1⟩
  · simp [retryEvents]
  · rcases h2 : attemptFn s1 with ⟨_ | e2, s2⟩
    · simp [retryEvents, h2]
    · rcases h3 : attemptFn s2 with ⟨_ | e3, s3⟩
      · simp [retryEvents, h2, h3]
      · simp [retryEvents, h2, h3, retriesExhausted]

theorem downloadWithRetryOf_first (attemptFn : Sys → Option GoError × Sys) (w : World)
    (s1 : Sys) (h1 : attemptFn w.sys = (none, s1)) :
    downloadWithRetryOf attemptFn w
      = (none, { sys := s1, trace := w.trace ++ retryEvents 1 }) := by
  rw [downloadWithRetryOf_unroll]
  simp only [h1]

theorem downloadWithRetryOf_second (attemptFn : Sys → Option GoError × Sys) (w : World)
    (e1 : GoError) (s1 s2 : Sys) (h1 : attemptFn w.sys = (some e1, s1))
    (h2 : attemptFn s1 = (none, s2)) :
    downloadWithRetryOf attemptFn w
      = (none, { sys := s2, trace := w.trace ++ retryEvents 2 }) := by
  rw [downloadWithRetryOf_unroll]
  simp only [h1, h2]

theorem downloadWithRetryOf_third (attemptFn : Sys → Option GoError × Sys) (w : World)
    (e1 e2 : GoError) (r3 : Option GoError) (s1 s2 s3 : Sys)
    (h1 : attemptFn w.sys = (some e1, s1)) (h2 : attemptFn s1 = (some e2, s2))
    (h3 : attemptFn s2 = (r3, s3)) :
    downloadWithRetryOf attemptFn w
      = (r3.map (GoError.failedAfter 3), { sys := s3, trace := w.trace ++ retryEvents 3 }) := by
  rw [downloadWithRetryOf_unroll]
  cases r3 <;> simp only [h1, h2, h3, Option.map]

/-- C4: an attempt function that fails on every call, whatever the error, is
invoked exactly 3 times by `downloadWithRetry`, and the error returned wraps
the error of the third invocation. -/
theorem downloadWithRetry_exhausts (attemptFn : Sys → Option GoError × Sys)
    (hfail : ∀ s, (attemptFn s).1 ≠ none) (w : World) :
    ∃ lastErr,
      outcome attemptFn w.sys 3 = some lastErr
      ∧ (downloadWithRetryOf attemptFn w).1 = some (.failedAfter 3 lastErr)
      ∧ (∀ err, (downloadWithRetryOf attemptFn w).1 = some err → err.Unwrap = some lastErr)
      ∧ (downloadWithRetryOf attemptFn w).2.sys = stateAfter attemptFn w.sys 3
      ∧ (downloadWithRetryOf attemptFn w).2.trace
          = w.trace ++ [.attempt 1, .sleep timeSecond, .printf "Retry #1...\n", .attempt 2,
                        .sleep timeSecond, .printf "Retry #2...\n", .attempt 3]
      ∧ attemptsIn ((downloadWithRetryOf attemptFn w).2.trace.drop w.trace.length) = 3 := by
  rcases h1 : attemptFn w.sys with ⟨_ | e1, s1⟩
  · exact absurd (by rw [h1]) (hfail w.sys)
  · rcases h2 : attemptFn s1 with ⟨_ | e2, s2⟩
    · exact absurd (by rw [h2]) (hfail s1)
    · rcases h3 : attemptFn s2 with ⟨_ | e3, s3⟩
      · exact absurd (by rw [h3]) (hfail s2)
      · rw [downloadWithRetryOf_third attemptFn w e1 e2 (some e3) s1 s2 s3 h1 h2 h3]
        refine ⟨e3, ?_, rfl, ?_, ?_, ?_, ?_⟩
        · simp [outcome, stateAfter, h1, h2, h3]
        · intro err herr
          simp only [Option.map, Option.some.injEq] at herr
          rw [← herr]
          rfl
        · simp [stateAfter, h1, h2, h3]
        · rfl
        · simp only [List.drop_left]
          decide

/-- Witness of C4: a downloader that answers already-exists on every call is
tried three times; the final error wraps already-exists. -/
theorem downloadWithRetry_exhausts_witness :
    (downloadWithRetryOf alwaysExists (demoWorld demoCatalog)).1.map GoError.Error
      = some "failed after 3 attempts: file already exists: app.apk"
    ∧ ∃ lastErr,
      outcome alwaysExists (demoSys demoCatalog) 3 = some lastErr
      ∧ (downloadWithRetryOf alwaysExists (demoWorld demoCatalog)).1
          = some (.failedAfter 3 lastErr)
      ∧ (∀ err, (downloadWithRetryOf alwaysExists (demoWorld demoCatalog)).1 = some err →
          err.Unwrap = some lastErr)
      ∧ (downloadWithRetryOf alwaysExists (demoWorld demoCatalog)).2.sys
          = stateAfter alwaysExists (demoSys demoCatalog) 3
      ∧ (downloadWithRetryOf alwaysExists (demoWorld demoCatalog)).2.trace
          = [] ++ [.attempt 1, .sleep timeSecond, .printf "Retry #1...\n", .attempt 2,
                   .sleep timeSecond, .printf "Retry #2...\n", .attempt 3]
      ∧ attemptsIn ((downloadWithRetryOf alwaysExists (demoWorld demoCatalog)).2.trace.drop 0)
          = 3 :=
  ⟨by decide,
    downloadWithRetry_exhausts alwaysExists (fun _ => by simp [alwaysExists])
      (demoWorld demoCatalog)⟩

theorem retryEvents_counts (n : Nat) (h1 : 1 ≤ n) (h3 : n ≤ 3) :
    attemptsIn (retryEvents n) = n ∧ sleepsIn (retryEvents n) = n - 1
      ∧ (retryEvents n).getLast? = some (.attempt n) := by
  interval_cases n <;> decide

/-- C10: if the first success is at attempt `k` (1 ≤ k ≤ 3), `downloadWithRetry`
returns nil after exactly `k` invocations made one after the other; and every
run makes `n` attempts for some `n` from 1 to 3, with `n - 1` one-second sleeps,
each between two consecutive attempts, the run ending on an attempt. -/
theorem downloadWithRetry_attempts_and_sleeps (attemptFn : Sys → Option GoError × Sys)
    (w : World) :
    (∀ k, 1 ≤ k → k ≤ 3 →
        (∀ j, 1 ≤ j → j < k → outcome attemptFn w.sys j ≠ none) →
        outcome attemptFn w.sys k = none →
        (downloadWithRetryOf attemptFn w).1 = none
        ∧ (downloadWithRetryOf attemptFn w).2.sys = stateAfter attemptFn w.sys k
        ∧ (downloadWithRetryOf attemptFn w).2.trace = w.trace ++ retryEvents k
        ∧ attemptsIn (retryEvents k) = k)
    ∧ (∃ n, 1 ≤ n ∧ n ≤ 3
        ∧ (downloadWithRetryOf attemptFn w).2.trace = w.trace ++ retryEvents n
        ∧ (downloadWithRetryOf attemptFn w).2.sys = stateAfter attemptFn w.sys n
        ∧ attemptsIn (retryEvents n) = n
        ∧ sleepsIn (retryEvents n) = n - 1
        ∧ (retryEvents n).getLast? = some (.attempt n)) := by
  constructor
  · intro k hk1 hk3 hbefore hk
    have hcount := (retryEvents_counts k hk1 hk3).1
    rcases h1 : attemptFn w.sys with ⟨_ | e1, s1⟩
    · rw [downloadWithRetryOf_first attemptFn w s1 h1]
      by_cases hk' : k = 1
      · subst hk'
        exact ⟨rfl, by simp [stateAfter, h1], rfl, hcount⟩
      · exact absurd (by simp [outcome, stateAfter, h1]) (hbefore 1 (le_refl 1) (by omega))
    · have hk1' : k ≠ 1 := by
        rintro rfl
        simp [outcome, stateAfter, h1] at hk
      rcases h2 : attemptFn s1 with ⟨_ | e2, s2⟩
      · rw [downloadWithRetryOf_second attemptFn w e1 s1 s2 h1 h2]
        by_cases hk' : k = 2
        · subst hk'
          exact ⟨rfl, by simp [stateAfter, h1, h2], rfl, hcount⟩
        · exact absurd (by simp [outcome, stateAfter, h1, h2])
            (hbefore 2 (by omega) (by omega))
      · have hk2' : k ≠ 2 := by
          rintro rfl
          simp [outcome, stateAfter, h1, h2] at hk
        have hk3' : k = 3 := by omega
        subst hk3'
        rcases h3 : attemptFn s2 with ⟨r3, s3⟩
        rw [downloadWithRetryOf_third attemptFn w e1 e2 r3 s1 s2 s3 h1 h2 h3]
        have hr3 : r3 = none := by simpa [outcome, stateAfter, h1, h2, h3] using hk
        subst hr3
        exact ⟨rfl, by simp [stateAfter, h1, h2, h3], rfl, hcount⟩
  · rcases h1 : attemptFn w.sys with ⟨_ | e1, s1⟩
    · rw [downloadWithRetryOf_first attemptFn w s1 h1]
      exact ⟨1, le_refl 1, by omega, rfl, by simp [stateAfter, h1],
        retryEvents_counts 1 (le_refl 1) (by omega)⟩
    · rcases h2 : attemptFn s1 with ⟨_ | e2, s2⟩
      · rw [downloadWithRetryOf_second attemptFn w e1 s1 s2 h1 h2]
        exact ⟨2, by omega, by omega, rfl, by simp [stateAfter, h1, h2],
          retryEvents_counts 2 (by omega) (by omega)⟩
      · rcases h3 : attemptFn s2 with ⟨r3, s3⟩
        rw [downloadWithRetryOf_third attemptFn w e1 e2 r3 s1 s2 s3 h1 h2 h3]
        exact ⟨3, by omega, le_refl 3, rfl, by simp [stateAfter, h1, h2, h3],
          retryEvents_counts 3 (by omega) (le_refl 3)⟩

/-- Witness of C10: an attempt that fails once and then succeeds is invoked
twice, with one sleep between the two invocations. -/
theorem downloadWithRetry_attempts_and_sleeps_witness :
    (downloadWithRetryOf secondTimeLucky (demoWorld demoCatalog)).1 = none
    ∧ (downloadWithRetryOf secondTimeLucky (demoWorld demoCatalog)).2.sys
        = stateAfter secondTimeLucky (demoSys demoCatalog) 2
    ∧ (downloadWithRetryOf secondTimeLucky (demoWorld demoCatalog)).2.trace
        = [] ++ [.attempt 1, .sleep timeSecond, .printf "Retry #1...\n", .attempt 2]
    ∧ attemptsIn (retryEvents 2) = 2 :=
  (downloadWithRetry_attempts_and_sleeps secondTimeLucky (demoWorld demoCatalog)).1 2
    (by decide) (by decide)
    (fun j hj1 hj2 => by
      have hj : j = 1 := by omega
      subst hj
      decide)
    (by decide)

/-! ### `downloadFile` and the existence check -/

theorem fileWrite_isSome (p fullPath : String) (data : Bytes) (s : Sys)
    (h : (s.files p).isSome) : ((fileWrite fullPath data s).2.files p).isSome := by
  simp only [fileWrite]
  split
  · exact h
  · by_cases hp : p = fullPath
    · simp [hp]
    · simp [hp, h]

theorem copyLoop_isSome (c : Client) (p fullPath filename : String) (total : Int)
    (body : List ReadStep) (downloaded : Nat) (s : Sys) (h : (s.files p).isSome) :
    ((copyLoop c fullPath filename total body downloaded s).2.files p).isSome := by
  induction body generalizing downloaded s with
  | nil => exact h
  | cons step rest ih =>
    by_cases hn : step.data.length > 0
    · have hw := fileWrite_isSome p fullPath step.data s h
      rcases hres : fileWrite fullPath step.data s with ⟨_ | writeErr, s1⟩
      · rw [hres] at hw
        by_cases hcb : c.options.ProgressCallback = true
        · cases herr : step.err with
          | nil =>
            simp only [copyLoop, hn, hres, hcb, herr, if_true]
            exact ih _ _ hw
          | EOF => simpa [copyLoop, hn, hres, hcb, herr] using hw
          | fail e => simpa [copyLoop, hn, hres, hcb, herr] using hw
        · cases herr : step.err with
          | nil =>
            simp only [copyLoop, hn, hres, hcb, herr, if_true]
            exact ih _ _ hw
          | EOF => simpa [copyLoop, hn, hres, hcb, herr] using hw
          | fail e => simpa [copyLoop, hn, hres, hcb, herr] using hw
      · rw [hres] at hw
        simpa [copyLoop, hn, hres] using hw
    · cases herr : step.err with
      | nil =>
        simp only [copyLoop, hn, herr, if_false]
        exact ih _ _ h
      | EOF => simpa [copyLoop, hn, herr] using h
      | fail e => simpa [copyLoop, hn, herr] using h

/-- Past the existence check and `os.Create`, whatever `downloadFile` returns,
the output file is on disk afterwards. -/
theorem downloadFile_leaves_file (c : Client) (url outPath filename : String) (s : Sys)
    (hfresh : (s.files (filepathJoin outPath filename)).isSome = false)
    (hcreate : s.createErr (filepathJoin outPath filename) = none) :
    ((downloadFile c url outPath filename s).2.files (filepathJoin outPath filename)).isSome := by
  simp only [downloadFile, hfresh, hcreate, deferredClose, httpDo]
  have hdefer : ∀ r : Option GoError × Sys,
      (match r.2.closeErr (filepathJoin outPath filename), r.1 with
        | some closeErr, none => (some (GoError.closeFile closeErr), r.2)
        | _, err => (err, r.2)).2 = r.2 := by
    intro r
    split <;> rfl
  simp only [Bool.false_eq_true, if_false]
  rw [hdefer]
  cases s.newRequestErr url with
  | some err => simp
  | none =>
    simp only
    cases s.server s.requests.length url with
    | error err => simp
    | ok resp =>
      by_cases hstatus : resp.StatusCode = 200
      · simp only [hstatus, ne_eq, not_true_eq_false, if_false]
        apply copyLoop_isSome
        simp
      · simp [hstatus]

theorem downloadFile_exists (c : Client) (url outPath filename : String) (s : Sys)
    (hexists : (s.files (filepathJoin outPath filename)).isSome) :
    downloadFile c url outPath filename s = (some (.fileExists filename), s) := by
  simp [downloadFile, hexists]

theorem downloadFile_success_exists (c : Client) (url outPath filename : String) (s s1 : Sys)
    (hrun : downloadFile c url outPath filename s = (none, s1)) :
    (s1.files (filepathJoin outPath filename)).isSome := by
  cases hfresh : (s.files (filepathJoin outPath filename)).isSome with
  | true => simp [downloadFile_exists c url outPath filename s hfresh] at hrun
  | false =>
    cases hcreate : s.createErr (filepathJoin outPath filename) with
    | some err => simp [downloadFile, hfresh, hcreate] at hrun
    | none =>
      have h := downloadFile_leaves_file c url outPath filename s hfresh hcreate
      rw [hrun] at h
      exact h

theorem downloadWithRetryOf_success (attemptFn : Sys → Option GoError × Sys) (w w1 : World)
    (hrun : downloadWithRetryOf attemptFn w = (none, w1)) :
    ∃ s, attemptFn s = (none, w1.sys) := by
  rcases h1 : attemptFn w.sys with ⟨_ | e1, s1⟩
  · rw [downloadWithRetryOf_first attemptFn w s1 h1] at hrun
    simp only [Prod.mk.injEq, true_and] at hrun
    exact ⟨w.sys, by rw [h1, ← hrun]⟩
  · rcases h2 : attemptFn s1 with ⟨_ | e2, s2⟩
    · rw [downloadWithRetryOf_second attemptFn w e1 s1 s2 h1 h2] at hrun
      simp only [Prod.mk.injEq, true_and] at hrun
      exact ⟨s1, by rw [h2, ← hrun]⟩
    · rcases h3 : attemptFn s2 with ⟨r3, s3⟩
      rw [downloadWithRetryOf_third attemptFn w e1 e2 r3 s1 s2 s3 h1 h2 h3] at hrun
      cases r3 with
      | some e3 => simp [Option.map] at hrun
      | none =>
        simp only [Option.map, Prod.mk.injEq, true_and] at hrun
        exact ⟨s2, by rw [h3, ← hrun]⟩

/-- C5: when a file exists at `filepath.Join(outPath, filename)`, `downloadFile`
returns the already-exists error and the whole system state, request log and
files included, is unchanged; hence after a successful `downloadFile` (or
`downloadWithRetry`), running it again for the same directory and file name
fails with already-exists (wrapped by the retry loop) and changes nothing. -/
theorem downloadFile_never_overwrites :
    (∀ (c : Client) (url outPath filename : String) (s : Sys),
        (s.files (filepathJoin outPath filename)).isSome →
        downloadFile c url outPath filename s = (some (.fileExists filename), s))
    ∧ (∀ (c : Client) (url outPath filename : String) (s s1 : Sys),
        downloadFile c url outPath filename s = (none, s1) →
        ∀ (c2 : Client) (url2 : String),
          downloadFile c2 url2 outPath filename s1 = (some (.fileExists filename), s1))
    ∧ (∀ (c : Client) (url outPath filename : String) (w w1 : World),
        downloadWithRetry c url outPath filename w = (none, w1) →
        ∀ (c2 : Client) (url2 : String),
          (downloadWithRetry c2 url2 outPath filename w1).1
            = some (.failedAfter 3 (.fileExists filename))
          ∧ (downloadWithRetry c2 url2 outPath filename w1).2.sys = w1.sys) := by
  refine ⟨downloadFile_exists, ?_, ?_⟩
  · intro c url outPath filename s s1 hrun c2 url2
    exact downloadFile_exists c2 url2 outPath filename s1
      (downloadFile_success_exists c url outPath filename s s1 hrun)
  · intro c url outPath filename w w1 hrun c2 url2
    obtain ⟨s, hs⟩ := downloadWithRetryOf_success _ w w1 hrun
    have hex := downloadFile_success_exists c url outPath filename s w1.sys hs
    have hagain := downloadFile_exists c2 url2 outPath filename w1.sys hex
    unfold downloadWithRetry
    rw [downloadWithRetryOf_third _ w1 _ _ _ _ _ _ hagain hagain hagain]
    exact ⟨rfl, rfl⟩

/-- Witness of C5: on an empty disk the artifact `u1` is downloaded to
`out/app.apk`; the same download run again fails with already-exists, issues no
request and leaves the three bytes in place. -/
theorem downloadFile_never_overwrites_witness :
    (downloadFile demoClient "u1" "out" "app.apk" (demoSys demoCatalog)).1 = none
    ∧ downloadFile demoClient "u1" "out" "app.apk"
          (downloadFile demoClient "u1" "out" "app.apk" (demoSys demoCatalog)).2
        = (some (.fileExists "app.apk"),
            (downloadFile demoClient "u1" "out" "app.apk" (demoSys demoCatalog)).2)
    ∧ (downloadFile demoClient "u1" "out" "app.apk"
          (downloadFile demoClient "u1" "out" "app.apk" (demoSys demoCatalog)).2).2.requests
        = ["u1"]
    ∧ (downloadFile demoClient "u1" "out" "app.apk"
          (downloadFile demoClient "u1" "out" "app.apk" (demoSys demoCatalog)).2).2.files
          "out/app.apk" = some [1, 2, 3] :=
  ⟨rfl,
   downloadFile_never_overwrites.2.1 demoClient "u1" "out" "app.apk" (demoSys demoCatalog)
      (downloadFile demoClient "u1" "out" "app.apk" (demoSys demoCatalog)).2 rfl
      demoClient "u1",
   rfl, rfl⟩

/-! ### `DownloadMultiple`: invariant of the goroutines -/

theorem countP_set (p : TaskPC → Bool) (l : List TaskPC) (i : Nat) (old new : TaskPC)
    (h : l[i]? = some old) :
    (l.set i new).countP p + (if p old = true then 1 else 0)
      = l.countP p + (if p new = true then 1 else 0) := by
  induction l generalizing i with
  | nil => simp at h
  | cons a l ih =>
    cases i with
    | zero =>
      simp only [List.getElem?_cons_zero, Option.some.injEq] at h
      subst h
      simp only [List.set_cons_zero, List.countP_cons]
      omega
    | succ i =>
      simp only [List.getElem?_cons_succ] at h
      have := ih i h
      simp only [List.set_cons_succ, List.countP_cons]
      omega

theorem countP_set_same (p : TaskPC → Bool) (l : List TaskPC) (i : Nat) (old new : TaskPC)
    (h : l[i]? = some old) (hp : p old = p new) :
    (l.set i new).countP p = l.countP p := by
  have := countP_set p l i old new h
  rw [hp] at this
  omega

theorem countP_set_gain (p : TaskPC → Bool) (l : List TaskPC) (i : Nat) (old new : TaskPC)
    (h : l[i]? = some old) (hold : p old = false) (hnew : p new = true) :
    (l.set i new).countP p = l.countP p + 1 := by
  have := countP_set p l i old new h
  simp only [hold, hnew, Bool.false_eq_true, if_false, if_true] at this
  omega

theorem countP_set_lose (p : TaskPC → Bool) (l : List TaskPC) (i : Nat) (old new : TaskPC)
    (h : l[i]? = some old) (hold : p old = true) (hnew : p new = false) :
    (l.set i new).countP p + 1 = l.countP p := by
  have := countP_set p l i old new h
  simp only [hold, hnew, Bool.false_eq_true, if_false, if_true] at this
  omega

theorem sum_remaining_set (l : List TaskPC) (i : Nat) (old new : TaskPC)
    (h : l[i]? = some old) :
    ((l.set i new).map TaskPC.remaining).sum + old.remaining
      = (l.map TaskPC.remaining).sum + new.remaining := by
  induction l generalizing i with
  | nil => simp at h
  | cons a l ih =>
    cases i with
    | zero =>
      simp only [List.getElem?_cons_zero, Option.some.injEq] at h
      subst h
      simp only [List.set_cons_zero, List.map_cons, List.sum_cons]
      omega
    | succ i =>
      simp only [List.getElem?_cons_succ] at h
      have := ih i h
      simp only [List.set_cons_succ, List.map_cons, List.sum_cons]
      omega

theorem MultiInv_init (c : Client) (apps : List AppInfo) (w : World) :
    MultiInv c apps (MultiState.init apps w) where
  pcs_length := by simp [MultiState.init]
  results_length := by simp [MultiState.init]
  sem_eq := by simp [MultiState.init, MultiState.inFlight, List.countP_replicate, TaskPC.inSection]
  sem_le := by simp [MultiState.init]
  stored := by
    intro i pc hpc hrec
    simp only [MultiState.init, List.getElem?_replicate] at hpc
    split at hpc
    · simp only [Option.some.injEq] at hpc
      subst hpc
      simp [TaskPC.recorded] at hrec
    · simp at hpc

theorem stored_of_set (apps : List AppInfo) (pcs : List TaskPC) (results : List DownloadResult)
    (idx : Nat) (old new : TaskPC) (hold : pcs[idx]? = some old)
    (hkeep : new.recorded = true → old.recorded = true)
    (hinv : ∀ (i : Nat) (pc : TaskPC), pcs[i]? = some pc → pc.recorded = true →
      ∃ (app : AppInfo) (r : DownloadResult), apps[i]? = some app ∧ results[i]? = some r ∧ r.AppInfo = app) :
    ∀ (i : Nat) (pc : TaskPC), (pcs.set idx new)[i]? = some pc → pc.recorded = true →
      ∃ (app : AppInfo) (r : DownloadResult), apps[i]? = some app ∧ results[i]? = some r ∧ r.AppInfo = app := by
  intro i pc hpc hrec
  rw [List.getElem?_set] at hpc
  by_cases hi : idx = i
  · subst hi
    rw [if_pos rfl] at hpc
    split at hpc
    · simp only [Option.some.injEq] at hpc
      subst hpc
      exact hinv idx old hold (hkeep hrec)
    · simp at hpc
  · rw [if_neg hi] at hpc
    exact hinv i pc hpc hrec

theorem taskStep_inv (c : Client) (apps : List AppInfo) (outPath : String) (idx : Nat)
    (st st1 : MultiState) (hinv : MultiInv c apps st)
    (hstep : taskStep c apps outPath idx st = some st1) : MultiInv c apps st1 := by
  unfold taskStep at hstep
  cases happ : apps[idx]? with
  | none => simp [happ] at hstep
  | some appInfo =>
    cases hpc : st.pcs[idx]? with
    | none => simp [happ, hpc] at hstep
    | some pc =>
      have hsem := hinv.sem_eq
      unfold MultiState.inFlight at hsem
      cases pc with
      | start =>
        simp only [happ, hpc] at hstep
        split at hstep
        · rename_i hlt
          simp only [Option.some.injEq] at hstep
          subst hstep
          exact {
            pcs_length := by simp [hinv.pcs_length]
            results_length := hinv.results_length
            sem_eq := by
              simp only [MultiState.inFlight]
              rw [countP_set_gain TaskPC.inSection st.pcs idx .start .acquired hpc rfl rfl, hsem]
            sem_le := by
              simp only
              omega
            stored := stored_of_set apps st.pcs st.results idx .start .acquired hpc
              (by simp [TaskPC.recorded]) hinv.stored }
        · simp at hstep
      | acquired =>
        simp only [happ, hpc, Option.some.injEq] at hstep
        subst hstep
        exact {
          pcs_length := by simp [hinv.pcs_length]
          results_length := hinv.results_length
          sem_eq := by
            simp only [MultiState.inFlight]
            rw [countP_set_same TaskPC.inSection st.pcs idx .acquired (.downloaded _) hpc rfl,
              hsem]
          sem_le := hinv.sem_le
          stored := stored_of_set apps st.pcs st.results idx .acquired _ hpc
            (by simp [TaskPC.recorded]) hinv.stored }
      | downloaded err =>
        simp only [happ, hpc, Option.some.injEq] at hstep
        subst hstep
        have hidx : idx < st.results.length := by
          have h1 : idx < st.pcs.length := (List.getElem?_eq_some.1 hpc).1
          rw [hinv.results_length, ← hinv.pcs_length]
          exact h1
        exact {
          pcs_length := by simp [hinv.pcs_length]
          results_length := by simp [hinv.results_length]
          sem_eq := by
            simp only [MultiState.inFlight]
            rw [countP_set_same TaskPC.inSection st.pcs idx (.downloaded err) .stored hpc rfl,
              hsem]
          sem_le := hinv.sem_le
          stored := by
            intro i pc hpci hrec
            by_cases hi : idx = i
            · subst hi
              refine ⟨appInfo,
                { AppInfo := appInfo,
                  Filename := if appInfo.Version ≠ "" then
                    appInfo.PackageID ++ "@" ++ appInfo.Version else appInfo.PackageID,
                  Success := err.isNone, Error := err }, happ, ?_, rfl⟩
              simp only [List.getElem?_set, if_pos hidx, if_true]
            · simp only [List.getElem?_set, if_neg hi] at hpci ⊢
              exact hinv.stored i pc hpci hrec }
      | stored =>
        simp only [happ, hpc, Option.some.injEq] at hstep
        subst hstep
        have hlose := countP_set_lose TaskPC.inSection st.pcs idx .stored .released hpc rfl rfl
        exact {
          pcs_length := by simp [hinv.pcs_length]
          results_length := hinv.results_length
          sem_eq := by
            simp only [MultiState.inFlight]
            omega
          sem_le := by
            have := hinv.sem_le
            simp only
            omega
          stored := stored_of_set apps st.pcs st.results idx .stored .released hpc
            (by simp [TaskPC.recorded]) hinv.stored }
      | released =>
        simp only [happ, hpc, Option.some.injEq] at hstep
        subst hstep
        exact {
          pcs_length := by simp [hinv.pcs_length]
          results_length := hinv.results_length
          sem_eq := by
            simp only [MultiState.inFlight]
            rw [countP_set_same TaskPC.inSection st.pcs idx .released .done hpc rfl, hsem]
          sem_le := hinv.sem_le
          stored := stored_of_set apps st.pcs st.results idx .released .done hpc
            (by simp [TaskPC.recorded]) hinv.stored }
      | done => simp [happ, hpc] at hstep

theorem runTasks_inv (c : Client) (apps : List AppInfo) (outPath : String)
    (sched : List Nat) (st st1 : MultiState) (hinv : MultiInv c apps st)
    (hrun : runTasks c apps outPath sched st = some st1) : MultiInv c apps st1 := by
  induction sched generalizing st with
  | nil =>
    simp only [runTasks, Option.some.injEq] at hrun
    subst hrun
    exact hinv
  | cons idx sched ih =>
    simp only [runTasks] at hrun
    cases hstep : taskStep c apps outPath idx st with
    | none => simp [hstep] at hrun
    | some st2 =>
      rw [hstep] at hrun
      exact ih st2 (taskStep_inv c apps outPath idx st st2 hinv hstep) hrun

/-! ### `DownloadMultiple`: every run can be completed -/

theorem taskStep_todo (c : Client) (apps : List AppInfo) (outPath : String) (idx : Nat)
    (st st1 : MultiState) (hstep : taskStep c apps outPath idx st = some st1) :
    st1.todo + 1 = st.todo := by
  unfold taskStep at hstep
  cases happ : apps[idx]? with
  | none => simp [happ] at hstep
  | some appInfo =>
    cases hpc : st.pcs[idx]? with
    | none => simp [happ, hpc] at hstep
    | some pc =>
      cases pc with
      | start =>
        simp only [happ, hpc] at hstep
        split at hstep
        · simp only [Option.some.injEq] at hstep
          subst hstep
          have := sum_remaining_set st.pcs idx .start .acquired hpc
          simp only [TaskPC.remaining] at this
          simp only [MultiState.todo]
          omega
        · simp at hstep
      | acquired =>
        simp only [happ, hpc, Option.some.injEq] at hstep
        subst hstep
        simp only [MultiState.todo]
        generalize (Download c appInfo outPath _).1 = err
        have := sum_remaining_set st.pcs idx .acquired (.downloaded err) hpc
        simp only [TaskPC.remaining] at this
        omega
      | downloaded err =>
        simp only [happ, hpc, Option.some.injEq] at hstep
        subst hstep
        have := sum_remaining_set st.pcs idx (.downloaded err) .stored hpc
        simp only [TaskPC.remaining] at this
        simp only [MultiState.todo]
        omega
      | stored =>
        simp only [happ, hpc, Option.some.injEq] at hstep
        subst hstep
        have := sum_remaining_set st.pcs idx .stored .released hpc
        simp only [TaskPC.remaining] at this
        simp only [MultiState.todo]
        omega
      | released =>
        simp only [happ, hpc, Option.some.injEq] at hstep
        subst hstep
        have := sum_remaining_set st.pcs idx .released .done hpc
        simp only [TaskPC.remaining] at this
        simp only [MultiState.todo]
        omega
      | done => simp [happ, hpc] at hstep

theorem exists_of_sum_pos (l : List TaskPC) (h : 0 < (l.map TaskPC.remaining).sum) :
    ∃ (i : Nat) (pc : TaskPC), l[i]? = some pc ∧ 0 < pc.remaining := by
  induction l with
  | nil => simp at h
  | cons a l ih =>
    by_cases ha : 0 < a.remaining
    · exact ⟨0, a, by simp, ha⟩
    · simp only [List.map_cons, List.sum_cons] at h
      obtain ⟨i, pc, hi, hpc⟩ := ih (by omega)
      exact ⟨i + 1, pc, by simpa using hi, hpc⟩

theorem exists_of_countP_pos (l : List TaskPC) (h : 0 < l.countP TaskPC.inSection) :
    ∃ (i : Nat) (pc : TaskPC), l[i]? = some pc ∧ pc.inSection = true := by
  induction l with
  | nil => simp at h
  | cons a l ih =>
    by_cases ha : a.inSection = true
    · exact ⟨0, a, by simp, ha⟩
    · simp only [List.countP_cons, ha, Bool.false_eq_true, if_false, add_zero] at h
      obtain ⟨i, pc, hi, hpc⟩ := ih h
      exact ⟨i + 1, pc, by simpa using hi, hpc⟩

theorem all_done_of_todo_zero (l : List TaskPC) (h : (l.map TaskPC.remaining).sum = 0) :
    l.all (fun pc => pc = .done) = true := by
  induction l with
  | nil => rfl
  | cons a l ih =>
    simp only [List.map_cons, List.sum_cons] at h
    have ha : a = .done := by
      cases a <;> simp [TaskPC.remaining] at h ⊢
    simp [ha, ih (by omega)]

theorem taskStep_in_section (c : Client) (apps : List AppInfo) (outPath : String) (idx : Nat)
    (st : MultiState) (appInfo : AppInfo) (pc : TaskPC) (happ : apps[idx]? = some appInfo)
    (hpc : st.pcs[idx]? = some pc) (hmid : pc ≠ .start) (hleft : 0 < pc.remaining) :
    ∃ st1, taskStep c apps outPath idx st = some st1 := by
  cases pc with
  | start => exact absurd rfl hmid
  | done => simp [TaskPC.remaining] at hleft
  | acquired => simp [taskStep, happ, hpc]
  | downloaded err => simp [taskStep, happ, hpc]
  | stored => simp [taskStep, happ, hpc]
  | released => simp [taskStep, happ, hpc]

theorem app_of_pc (c : Client) (apps : List AppInfo) (st : MultiState)
    (hinv : MultiInv c apps st) (i : Nat) (pc : TaskPC) (hpc : st.pcs[i]? = some pc) :
    ∃ appInfo, apps[i]? = some appInfo := by
  have hi : i < apps.length := by
    rw [← hinv.pcs_length]
    exact (List.getElem?_eq_some.1 hpc).1
  exact ⟨apps[i], List.getElem?_eq_getElem hi⟩

/-- With a capacity of at least one, a call that is not over can always make a
step: the goroutines never deadlock. -/
theorem exists_step (c : Client) (apps : List AppInfo) (outPath : String) (st : MultiState)
    (hinv : MultiInv c apps st) (hcap : 1 ≤ semCap c) (htodo : 0 < st.todo) :
    ∃ idx st1, taskStep c apps outPath idx st = some st1 := by
  obtain ⟨i, pc, hpc, hleft⟩ := exists_of_sum_pos st.pcs htodo
  obtain ⟨appInfo, happ⟩ := app_of_pc c apps st hinv i pc hpc
  by_cases hstart : pc = .start
  · subst hstart
    by_cases hfree : st.sem < semCap c
    · exact ⟨i, by simp [taskStep, happ, hpc, hfree]⟩
    · have hpos : 0 < st.pcs.countP TaskPC.inSection := by
        have := hinv.sem_eq
        unfold MultiState.inFlight at this
        omega
      obtain ⟨j, pcj, hj, hin⟩ := exists_of_countP_pos st.pcs hpos
      obtain ⟨appj, happj⟩ := app_of_pc c apps st hinv j pcj hj
      obtain ⟨st1, hst1⟩ := taskStep_in_section c apps outPath j st appj pcj happj hj
        (by rintro rfl; simp [TaskPC.inSection] at hin)
        (by cases pcj <;> simp [TaskPC.inSection, TaskPC.remaining] at hin ⊢)
      exact ⟨j, st1, hst1⟩
  · obtain ⟨st1, hst1⟩ := taskStep_in_section c apps outPath i st appInfo pc happ hpc hstart hleft
    exact ⟨i, st1, hst1⟩

theorem runTasks_append (c : Client) (apps : List AppInfo) (outPath : String)
    (sched more : List Nat) (st : MultiState) :
    runTasks c apps outPath (sched ++ more) st
      = (runTasks c apps outPath sched st).bind (runTasks c apps outPath more) := by
  induction sched generalizing st with
  | nil => rfl
  | cons idx sched ih =>
    simp only [List.cons_append, runTasks]
    cases taskStep c apps outPath idx st with
    | none => rfl
    | some st1 => exact ih st1

theorem exists_completion (c : Client) (apps : List AppInfo) (outPath : String)
    (hcap : 1 ≤ semCap c) (n : Nat) :
    ∀ st, MultiInv c apps st → st.todo = n →
      ∃ more st1, runTasks c apps outPath more st = some st1 ∧ st1.todo = 0 := by
  induction n with
  | zero => exact fun st _ h => ⟨[], st, rfl, h⟩
  | succ n ih =>
    intro st hinv htodo
    obtain ⟨idx, st1, hstep⟩ := exists_step c apps outPath st hinv hcap (by omega)
    have hless := taskStep_todo c apps outPath idx st st1 hstep
    obtain ⟨more, st2, hrun, hzero⟩ :=
      ih st1 (taskStep_inv c apps outPath idx st st1 hinv hstep) (by omega)
    exact ⟨idx :: more, st2, by simp [runTasks, hstep, hrun], hzero⟩

/-! ### `DownloadMultiple`: results and admission bound -/

/-- C6: whatever the interleaving of the goroutines, when `DownloadMultiple`
returns, the list has the length of the input and its i-th result carries the
i-th job; and, the capacity being at least one, every partial run extends to a
run on which `DownloadMultiple` returns. -/
theorem DownloadMultiple_keeps_order (c : Client) (apps : List AppInfo) (outPath : String)
    (w : World) :
    (1 ≤ c.options.Parallel → ∀ sched st,
        runTasks c apps outPath sched (MultiState.init apps w) = some st →
        ∃ more results, DownloadMultiple c apps outPath (sched ++ more) w = some results)
    ∧ (∀ sched results, DownloadMultiple c apps outPath sched w = some results →
        results.length = apps.length
        ∧ ∀ i, i < apps.length → (results[i]?).map (fun r => r.AppInfo) = apps[i]?) := by
  constructor
  · intro hpar sched st hrun
    have hcap : 1 ≤ semCap c := by
      unfold semCap
      omega
    have hinv := runTasks_inv c apps outPath sched _ st (MultiInv_init c apps w) hrun
    obtain ⟨more, st1, hmore, hzero⟩ :=
      exists_completion c apps outPath hcap st.todo st hinv rfl
    refine ⟨more, st1.results, ?_⟩
    have hneg : ¬ c.options.Parallel < 0 := by omega
    have hdone := all_done_of_todo_zero st1.pcs hzero
    simp only [DownloadMultiple, hneg, if_false, runTasks_append, hrun, Option.bind, hmore]
    rw [if_pos hdone]
  · intro sched results hret
    unfold DownloadMultiple at hret
    split at hret
    · simp at hret
    · cases hrun : runTasks c apps outPath sched (MultiState.init apps w) with
      | none => simp [hrun] at hret
      | some st =>
        rw [hrun] at hret
        simp only at hret
        split at hret
        · rename_i hdone
          simp only [Option.some.injEq] at hret
          subst hret
          have hinv := runTasks_inv c apps outPath sched _ st (MultiInv_init c apps w) hrun
          refine ⟨hinv.results_length, ?_⟩
          intro i hi
          have hipc : i < st.pcs.length := by
            rw [hinv.pcs_length]
            exact hi
          have hpc : st.pcs[i]? = some st.pcs[i] := List.getElem?_eq_getElem hipc
          have hisdone : st.pcs[i] = .done := by
            have := List.all_eq_true.1 hdone st.pcs[i] (List.getElem_mem hipc)
            simpa using this
          obtain ⟨app, r, happ, hr, hri⟩ :=
            hinv.stored i _ hpc (by rw [hisdone]; rfl)
          rw [hr, happ, ← hri]
          rfl
        · simp at hret

/-- Witness of C6: three jobs, two admitted at a time, finishing in the order
1, 2, 0; the results come back in the order 0, 1, 2 of the input. -/
theorem DownloadMultiple_keeps_order_witness :
    ∃ results,
      DownloadMultiple pairClient demoJobs "out" demoSchedule (demoWorld demoCatalog)
        = some results
      ∧ results.length = demoJobs.length
      ∧ ∀ i, i < demoJobs.length → (results[i]?).map (fun r => r.AppInfo) = demoJobs[i]? :=
  ⟨_, rfl,
    (DownloadMultiple_keeps_order pairClient demoJobs "out" (demoWorld demoCatalog)).2
      demoSchedule _ rfl⟩

/-- C8: `NewClient` always yields a parallelism of at least one; and for a
client with parallelism `k ≥ 1` and more than `k` jobs, in every state reached
by the goroutines of `DownloadMultiple` the number of goroutines between
acquiring and releasing the semaphore is at most `k`. -/
theorem DownloadMultiple_admission_bound :
    (∀ opts : DownloadOptions, 1 ≤ (NewClient opts).options.Parallel)
    ∧ (∀ (c : Client) (apps : List AppInfo) (outPath : String) (w : World)
        (sched : List Nat) (st : MultiState),
        1 ≤ c.options.Parallel → c.options.Parallel < (apps.length : Int) →
        runTasks c apps outPath sched (MultiState.init apps w) = some st →
        (st.inFlight : Int) ≤ c.options.Parallel) := by
  constructor
  · intro opts
    simp only [NewClient]
    split <;> split <;> split <;> split <;> split <;> simp_all <;> omega
  · intro c apps outPath w sched st hk _ hrun
    have hinv := runTasks_inv c apps outPath sched _ st (MultiInv_init c apps w) hrun
    have h1 := hinv.sem_eq
    have h2 := hinv.sem_le
    unfold semCap at h2
    omega

/-- Witness of C8: with parallelism 2 and three jobs, once jobs 0 and 1 hold
the semaphore two goroutines are in flight and job 2 cannot enter. -/
theorem DownloadMultiple_admission_bound_witness :
    ∃ st, runTasks pairClient demoJobs "out" [0, 1]
        (MultiState.init demoJobs (demoWorld demoCatalog)) = some st
      ∧ st.inFlight = 2
      ∧ (st.inFlight : Int) ≤ pairClient.options.Parallel
      ∧ (taskStep pairClient demoJobs "out" 2 st).isNone = true :=
  ⟨_, rfl, rfl,
    DownloadMultiple_admission_bound.2 pairClient demoJobs "out" (demoWorld demoCatalog)
      [0, 1] _ (by decide) (by decide) rfl,
    rfl⟩

/-- C7, the code at a concrete input: job 0 asks for version 1.0 of
`com.example.app`; its file is written as `out/com.example.app@1.0.apk`, yet
the `Filename` of its result is `com.example.app@1.0`, without extension, a
name under which no file exists. -/
theorem DownloadMultiple_filename_without_extension :
    ∃ st, runTasks pairClient demoJobs "out" demoSchedule
        (MultiState.init demoJobs (demoWorld demoCatalog)) = some st
      ∧ DownloadMultiple pairClient demoJobs "out" demoSchedule (demoWorld demoCatalog)
          = some st.results
      ∧ st.results.map (fun r => r.Filename)
          = ["com.example.app@1.0", "com.example.app", "org.sample.tool"]
      ∧ st.results.map (fun r => r.Success) = [true, true, true]
      ∧ st.world.sys.files "out/com.example.app@1.0.apk" = some [1, 2, 3]
      ∧ st.world.sys.files "out/com.example.app@1.0" = none
      ∧ st.world.sys.files "out/com.example.app.apk" = some [1, 2, 3]
      ∧ st.world.sys.files "out/org.sample.tool.apk" = some [1, 2, 3] :=
  ⟨_, rfl, rfl, rfl, rfl, rfl, rfl, rfl, rfl⟩

/-! ### Retrying after a failed transfer -/

/-- C11: the output file is absent at first and `os.Create` succeeds; if the
first `downloadFile` attempt then fails (request, status, read, write or close
error), the file is on disk afterwards, the second and third attempts both fail
at the existence check without touching the system, and `downloadWithRetry`
returns, never nil, an error that wraps already-exists. -/
theorem downloadWithRetry_stuck_after_failed_transfer (c : Client)
    (url outPath filename : String) (w : World)
    (hfresh : (w.sys.files (filepathJoin outPath filename)).isSome = false)
    (hcreate : w.sys.createErr (filepathJoin outPath filename) = none)
    (hfail : (downloadFile c url outPath filename w.sys).1 ≠ none) :
    ((downloadFile c url outPath filename w.sys).2.files
        (filepathJoin outPath filename)).isSome = true
    ∧ outcome (downloadFile c url outPath filename) w.sys 2 = some (.fileExists filename)
    ∧ outcome (downloadFile c url outPath filename) w.sys 3 = some (.fileExists filename)
    ∧ (downloadWithRetry c url outPath filename w).1
        = some (.failedAfter 3 (.fileExists filename))
    ∧ (downloadWithRetry c url outPath filename w).1.bind GoError.Unwrap
        = some (.fileExists filename)
    ∧ (downloadWithRetry c url outPath filename w).2.sys
        = (downloadFile c url outPath filename w.sys).2
    ∧ attemptsIn ((downloadWithRetry c url outPath filename w).2.trace.drop w.trace.length)
        = 3 := by
  have hleft := downloadFile_leaves_file c url outPath filename w.sys hfresh hcreate
  rcases h1 : downloadFile c url outPath filename w.sys with ⟨_ | e1, s1⟩
  · exact absurd (by rw [h1]) hfail
  · rw [h1] at hleft
    have hagain := downloadFile_exists c url outPath filename s1 hleft
    have hrun := downloadWithRetryOf_third (downloadFile c url outPath filename) w
      e1 (.fileExists filename) (some (.fileExists filename)) s1 s1 s1 h1 hagain hagain
    unfold downloadWithRetry
    rw [hrun]
    refine ⟨hleft, ?_, ?_, rfl, rfl, rfl, ?_⟩
    · simp [outcome, stateAfter, h1, hagain]
    · simp [outcome, stateAfter, h1, hagain]
    · simp only [List.drop_left]
      decide

/-- Witness of C11: the server refuses the first request with status 503 and
would serve the artifact afterwards; the empty file left by the first attempt
makes attempts two and three fail, one request is issued in all, and the final
error reports already-exists. -/
theorem downloadWithRetry_stuck_after_failed_transfer_witness :
    (downloadFile demoClient "u1" "out" "app.apk" flakySys).1 = some (.invalidStatus 503)
    ∧ (downloadWithRetry demoClient "u1" "out" "app.apk" ⟨flakySys, []⟩).1.map GoError.Error
        = some "failed after 3 attempts: file already exists: app.apk"
    ∧ (downloadWithRetry demoClient "u1" "out" "app.apk" ⟨flakySys, []⟩).2.sys.requests
        = ["u1"]
    ∧ (downloadWithRetry demoClient "u1" "out" "app.apk" ⟨flakySys, []⟩).2.sys.files
        "out/app.apk" = some []
    ∧ (downloadWithRetry demoClient "u1" "out" "app.apk" ⟨flakySys, []⟩).1
        = some (.failedAfter 3 (.fileExists "app.apk")) :=
  ⟨rfl, by decide, rfl, rfl,
    (downloadWithRetry_stuck_after_failed_transfer demoClient "u1" "out" "app.apk"
      ⟨flakySys, []⟩ rfl rfl (by decide)).2.2.2.1⟩

end Apkpure
